import Mathlib

/-!
# send-loop.js : the send-loop scheduler

A shallow embedding of `src/gmail-spam/send-loop.js`.

* The three module-level variables `sentCount`, `running`, `consecutiveErrors`
  (lines 26-28) become the record `RunState`, threaded explicitly.
* `transporter.sendMail` is an external collaborator: its result for one call is an
  input, `Except String String` (rejection with an error, or resolution with a
  message id).
* JavaScript is single threaded: a signal handler (`stopRunning`) can only run while
  `mainLoop` is suspended at an `await`, that is while `sendMail` is in flight or
  while a `setTimeout` slice of the wait loop is pending. The environment of one
  loop iteration is therefore the record `Iter`.
* `DELAY_MS` and `MAX_COUNT` are results of `parseInt`, modelled as `Int`
  (the `NaN` result of an unparsable value is outside the model).
* `Math.random()` is a number in `[0, 1)`, modelled as a rational; products and
  `Math.floor` are exact.
-/

namespace GmailSpam

/-- The mutable module variables of send-loop.js, lines 26-28. -/
structure RunState where
  sentCount : Nat
  running : Bool
  consecutiveErrors : Nat
deriving DecidableEq, Repr

/-- The values the variables are created with: `0`, `true`, `0`. -/
def initialState : RunState := ⟨0, true, 0⟩

/-- The signal handler `stopRunning`, lines 33-37. -/
def stopRunning (s : RunState) : RunState :=
  if !s.running then s else { s with running := false }

/-- The function `sendOne`, lines 45-67. `sendMail` is the outcome of
`await transporter.sendMail(mailOptions)`; `stopSignal` says whether a stop signal is
delivered while that call is awaited. The `try`/`catch` of the source is the
`tryCatch` of the exception monad: a result `.error e` would be an exception
leaving `sendOne`. -/
def sendOne (s : RunState) (stopSignal : Bool) (sendMail : Except String String) :
    Except String (RunState × Bool) :=
  let s0 := if stopSignal then stopRunning s else s
  tryCatch
    (do
      let _info ← sendMail
      pure ({ s0 with sentCount := s0.sentCount + 1, consecutiveErrors := 0 }, true))
    (fun _err => pure ({ s0 with consecutiveErrors := s0.consecutiveErrors + 1 }, false))

/-- The constant `step` of line 117. -/
def step : Int := 500

/-- The wait computation of `mainLoop`, lines 104-114. `random` is the value of
`Math.random()`. In the first branch `consecutiveErrors > 0`, so the truncated
subtraction `consecutiveErrors - 1` is the subtraction of the source. -/
def computeWait (DELAY_MS : Int) (ok : Bool) (consecutiveErrors : Nat) (random : ℚ) : Int :=
  if !ok && decide (consecutiveErrors > 0) then
    let multiplier : Nat := min (2 ^ (consecutiveErrors - 1)) 16
    DELAY_MS * multiplier
  else
    let jitter : Int := ⌊random * ((min 1000 ⌊(DELAY_MS : ℚ) / 5⌋ : Int) : ℚ)⌋
    DELAY_MS + jitter

/-- What the wait loop leaves behind: the durations passed to `setTimeout`, in order,
the final value of `waited`, and the run state. -/
structure WaitResult where
  slices : List Int
  waited : Int
  state : RunState
deriving DecidableEq, Repr

/-- The wait loop of `mainLoop`, lines 118-122:
`while (waited < wait && running) { await setTimeout(min(step, wait - waited)); waited += step; }`.
`k` counts the slices already started; a stop signal, if any, is delivered during
slice number `stopAtSlice`. The first argument bounds the number of iterations
(see `waitLoop_exit`: with `wait.toNat` the loop always ends by its own condition). -/
def waitLoop (wait : Int) (stopAtSlice : Option Nat) :
    Nat → Nat → Int → RunState → WaitResult
  | 0, _, waited, s => ⟨[], waited, s⟩
  | fuel + 1, k, waited, s =>
    if decide (waited < wait) && s.running then
      let s1 := if stopAtSlice = some k then stopRunning s else s
      let rest := waitLoop wait stopAtSlice fuel (k + 1) (waited + step) s1
      ⟨min step (wait - waited) :: rest.slices, rest.waited, rest.state⟩
    else ⟨[], waited, s⟩

/-- The environment of one iteration of the `while (running)` loop. -/
structure Iter where
  -- the outcome of `transporter.sendMail`
  sendMail : Except String String
  -- a stop signal arrives while `sendMail` is in flight
  stopDuringSend : Bool
  -- the value `Math.random()` returns in this iteration, if it is called
  random : ℚ
  -- the number (from 0) of the wait-loop slice during which a stop signal arrives, if any
  stopAtSlice : Option Nat

/-- Observable actions of `mainLoop`. -/
inductive Event where
  -- one call of `sendOne`; `attemptNo` is `sentCount + 1` at the call (the number
  -- put into the subject), `ok` is the value `sendOne` returned
  | send (attemptNo : Nat) (ok : Bool)
  -- one `setTimeout` of the wait loop, with its duration
  | slice (ms : Int)
deriving DecidableEq, Repr

/-- How the `while (running)` loop was left. -/
inductive Reason where
  -- the `break` at line 94
  | limitReached
  -- the flag `running` is false at line 90 or at line 100
  | stopped
  -- an exception left `sendOne` (handler of line 130)
  | fatal
  -- the script of iterations is used up and the loop would go on
  | pending
deriving DecidableEq, Repr

/-- Result of a run of the loop. -/
structure Outcome where
  events : List Event
  final : RunState
  reason : Reason
deriving DecidableEq, Repr

/-- The `while (running)` loop of `mainLoop`, lines 90-123, run against a script of
iteration environments. -/
def mainLoop (DELAY_MS MAX_COUNT : Int) (s : RunState) (script : List Iter) : Outcome :=
  if !s.running then ⟨[], s, .stopped⟩
  else if decide (MAX_COUNT > 0) && decide ((s.sentCount : Int) ≥ MAX_COUNT) then
    ⟨[], s, .limitReached⟩
  else
    match script with
    | [] => ⟨[], s, .pending⟩
    | it :: rest =>
      match sendOne s it.stopDuringSend it.sendMail with
      | .error _ => ⟨[.send (s.sentCount + 1) false], s, .fatal⟩
      | .ok (s1, ok) =>
        if !s1.running then ⟨[.send (s.sentCount + 1) ok], s1, .stopped⟩
        else
          let wait := computeWait DELAY_MS ok s1.consecutiveErrors it.random
          let w := waitLoop wait it.stopAtSlice wait.toNat 0 0 s1
          let out := mainLoop DELAY_MS MAX_COUNT w.state rest
          ⟨.send (s.sentCount + 1) ok :: (w.slices.map .slice ++ out.events),
            out.final, out.reason⟩

/-- Whether the transport accepts the message of this iteration. -/
def Iter.succeeds (it : Iter) : Bool :=
  match it.sendMail with
  | .ok _ => true
  | .error _ => false

/-- One call of `sendOne` applied to a run state (an exception leaving `sendOne`
would leave the state as it was at the call). -/
def applyAttempt (s : RunState) (it : Iter) : RunState :=
  match sendOne s it.stopDuringSend it.sendMail with
  | .ok (s1, _) => s1
  | .error _ => s

/-- The run state after a sequence of calls of `sendOne`. -/
def attempts (s : RunState) (script : List Iter) : RunState :=
  script.foldl applyAttempt s

/-- The values of `consecutiveErrors` seen after each call of a sequence. -/
def observedErrors (s : RunState) (script : List Iter) : List Nat :=
  ((script.scanl applyAttempt s).tail).map RunState.consecutiveErrors

/-- The event is a call of `sendOne`. -/
def Event.isSend : Event → Bool
  | .send _ _ => true
  | .slice _ => false

/-- The event is a call of `sendOne` that returned `true`. -/
def Event.isSuccess : Event → Bool
  | .send _ ok => ok
  | .slice _ => false

/-- No two calls of `sendOne` are adjacent in a trace: between any two consecutive
calls there is at least one timer slice. -/
def sendsSeparated : List Event → Bool
  | [] => true
  | [_] => true
  | .send _ _ :: .send _ _ :: _ => false
  | _ :: e :: rest => sendsSeparated (e :: rest)

/-- The number of calls of `sendOne` in a trace. -/
def sendCount (events : List Event) : Nat := events.countP Event.isSend

/-! ## Auxiliary lemmas -/
theorem sendOne_eq (s : RunState) (sig : Bool) (res : Except String String) :
    sendOne s sig res =
      .ok (match res with
        | .ok _ => (⟨s.sentCount + 1, (if sig then stopRunning s else s).running, 0⟩, true)
        | .error _ => (⟨s.sentCount, (if sig then stopRunning s else s).running,
            s.consecutiveErrors + 1⟩, false)) := by
  cases s with
  | mk a b c => cases res <;> cases sig <;> cases b <;> rfl

theorem stopRunning_running (s : RunState) : (stopRunning s).running = false := by
  cases s with
  | mk a b c => cases b <;> rfl

theorem stopRunning_counters (s : RunState) :
    (stopRunning s).sentCount = s.sentCount ∧
      (stopRunning s).consecutiveErrors = s.consecutiveErrors := by
  cases s with
  | mk a b c => cases b <;> exact ⟨rfl, rfl⟩

theorem stopRunning_of_running (s : RunState) (h : s.running = true) :
    stopRunning s = { s with running := false } := by
  simp [stopRunning, h]

theorem waitLoop_not_running (wait : Int) (sig : Option Nat) (fuel k : Nat) (waited : Int)
    (s : RunState) (h : s.running = false) :
    waitLoop wait sig fuel k waited s = ⟨[], waited, s⟩ := by
  cases fuel with
  | zero => rfl
  | succ f => simp [waitLoop, h]

theorem waitLoop_counters (wait : Int) (sig : Option Nat) :
    ∀ (fuel k : Nat) (waited : Int) (s : RunState),
      (waitLoop wait sig fuel k waited s).state.sentCount = s.sentCount ∧
      (waitLoop wait sig fuel k waited s).state.consecutiveErrors = s.consecutiveErrors := by
  intro fuel
  induction fuel with
  | zero => intro k waited s; exact ⟨rfl, rfl⟩
  | succ f ih =>
    intro k waited s
    unfold waitLoop
    split
    · by_cases hk : sig = some k
      · simp only [hk, if_true]
        have h1 := ih (k + 1) (waited + step) (stopRunning s)
        have h2 := stopRunning_counters s
        simp only [hk] at h1
        exact ⟨h1.1.trans h2.1, h1.2.trans h2.2⟩
      · simp only [hk, if_false]
        exact ih (k + 1) (waited + step) s
    · exact ⟨rfl, rfl⟩

theorem waitLoop_exit (wait : Int) (sig : Option Nat) :
    ∀ (fuel k : Nat) (waited : Int) (s : RunState), (wait - waited).toNat ≤ fuel →
      ¬ ((waitLoop wait sig fuel k waited s).waited < wait ∧
          (waitLoop wait sig fuel k waited s).state.running = true) := by
  intro fuel
  induction fuel with
  | zero =>
    intro k waited s hf
    simp only [waitLoop]
    omega
  | succ f ih =>
    intro k waited s hf
    unfold waitLoop
    split
    · rename_i hc
      simp only [Bool.and_eq_true, decide_eq_true_eq] at hc
      apply ih
      simp only [step]
      omega
    · rename_i hc
      simp only [Bool.and_eq_true, decide_eq_true_eq] at hc
      exact hc

theorem waitLoop_slice_bounds (wait : Int) (sig : Option Nat) :
    ∀ (fuel k : Nat) (waited : Int) (s : RunState),
      ∀ d ∈ (waitLoop wait sig fuel k waited s).slices, 0 < d ∧ d ≤ 500 := by
  intro fuel
  induction fuel with
  | zero => intro k waited s d hd; simp [waitLoop] at hd
  | succ f ih =>
    intro k waited s d hd
    unfold waitLoop at hd
    split at hd
    · rename_i hc
      simp only [Bool.and_eq_true, decide_eq_true_eq] at hc
      simp only [List.mem_cons] at hd
      rcases hd with rfl | hd
      · simp only [step]; omega
      · exact ih _ _ _ d hd
    · simp at hd

theorem waitLoop_nonempty (wait : Int) (sig : Option Nat) (fuel k : Nat) (waited : Int)
    (s : RunState) (hf : 0 < fuel) (hw : waited < wait) (hr : s.running = true) :
    (waitLoop wait sig fuel k waited s).slices ≠ [] := by
  cases fuel with
  | zero => omega
  | succ f => simp [waitLoop, hw, hr]

theorem waitLoop_none (wait : Int) :
    ∀ (fuel k : Nat) (waited : Int) (s : RunState), s.running = true →
      (wait - waited).toNat ≤ fuel →
      (waitLoop wait none fuel k waited s).state = s ∧
      (waitLoop wait none fuel k waited s).slices.sum = max 0 (wait - waited) ∧
      ((waitLoop wait none fuel k waited s).slices.length : Int)
        = max 0 ((wait - waited + 499) / 500) ∧
      wait ≤ (waitLoop wait none fuel k waited s).waited := by
  intro fuel
  induction fuel with
  | zero =>
    intro k waited s _ hf
    simp only [waitLoop, List.sum_nil, List.length_nil]
    refine ⟨trivial, ?_, ?_, ?_⟩ <;> omega
  | succ f ih =>
    intro k waited s hr hf
    unfold waitLoop
    split
    · rename_i hc
      simp only [Bool.and_eq_true, decide_eq_true_eq] at hc
      have h := ih (k + 1) (waited + step) s hr (by simp only [step]; omega)
      simp only [step] at h ⊢
      simp only [reduceCtorEq, if_false, List.sum_cons, List.length_cons]
      refine ⟨h.1, ?_, ?_, h.2.2.2⟩
      · rw [h.2.1]; omega
      · push_cast; rw [h.2.2.1]; omega
    · rename_i hc
      simp only [Bool.and_eq_true, decide_eq_true_eq, hr, and_true] at hc
      simp only [List.sum_nil, List.length_nil]
      refine ⟨trivial, ?_, ?_, ?_⟩ <;> omega

theorem waitLoop_stop (wait : Int) (j : Nat) :
    ∀ (n k fuel : Nat) (waited : Int) (s : RunState), k + n = j → s.running = true →
      waited + n * 500 < wait → n < fuel →
      (waitLoop wait (some j) fuel k waited s).slices.length = n + 1 ∧
      (waitLoop wait (some j) fuel k waited s).state = { s with running := false } := by
  intro n
  induction n with
  | zero =>
    intro k fuel waited s hk hr hw hf
    cases fuel with
    | zero => omega
    | succ f =>
      have hkj : k = j := by omega
      have hw2 : waited < wait := by omega
      unfold waitLoop
      simp only [hw2, hr, decide_True, Bool.and_self, if_true, hkj]
      rw [waitLoop_not_running _ _ _ _ _ _ (stopRunning_running s)]
      simp [stopRunning_of_running s hr]
  | succ m ih =>
    intro k fuel waited s hk hr hw hf
    cases fuel with
    | zero => omega
    | succ f =>
      have hkj : ¬ (some j = some k) := by
        intro h; injection h with h; omega
      have hw2 : waited < wait := by push_cast at hw; omega
      unfold waitLoop
      simp only [hw2, hr, decide_True, Bool.and_self, if_true, hkj, if_false]
      have h := ih (k + 1) f (waited + step) s (by omega) hr
        (by simp only [step]; push_cast at hw; omega) (by omega)
      simp only [List.length_cons]
      exact ⟨by rw [h.1], h.2⟩



theorem sendOne_spec (s : RunState) (sig : Bool) (res : Except String String) :
    ∃ s1 ok, sendOne s sig res = .ok (s1, ok) ∧
      s1.running = (s.running && !sig) ∧
      s1.sentCount = s.sentCount + (if ok then 1 else 0) ∧
      s1.consecutiveErrors = (if ok then 0 else s.consecutiveErrors + 1) ∧
      (ok = true ↔ ∃ id, res = .ok id) := by
  cases s with
  | mk a b c =>
    cases res with
    | ok id =>
      refine ⟨_, true, sendOne_eq _ _ _, ?_, rfl, rfl, ?_⟩
      · cases sig <;> cases b <;> rfl
      · simp
    | error e =>
      refine ⟨_, false, sendOne_eq _ _ _, ?_, rfl, rfl, ?_⟩
      · cases sig <;> cases b <;> rfl
      · simp

theorem mainLoop_not_running (D M : Int) (s : RunState) (script : List Iter)
    (hr : s.running = false) : mainLoop D M s script = ⟨[], s, .stopped⟩ := by
  unfold mainLoop
  simp [hr]

theorem mainLoop_at_limit (D M : Int) (s : RunState) (script : List Iter)
    (hr : s.running = true) (hM : 0 < M) (hl : M ≤ (s.sentCount : Int)) :
    mainLoop D M s script = ⟨[], s, .limitReached⟩ := by
  unfold mainLoop
  simp [hr, hM, hl]

theorem mainLoop_nil (D M : Int) (s : RunState)
    (hr : s.running = true) (hl : ¬ (0 < M ∧ M ≤ (s.sentCount : Int))) :
    mainLoop D M s [] = ⟨[], s, .pending⟩ := by
  unfold mainLoop
  simp [hr]
  intro h
  by_contra hc
  exact hl ⟨h, by omega⟩

theorem mainLoop_step_stop (D M : Int) (s : RunState) (it : Iter) (rest : List Iter)
    (hr : s.running = true) (hl : ¬ (0 < M ∧ M ≤ (s.sentCount : Int)))
    (s1 : RunState) (ok : Bool)
    (hs : sendOne s it.stopDuringSend it.sendMail = .ok (s1, ok))
    (h1 : s1.running = false) :
    mainLoop D M s (it :: rest) = ⟨[.send (s.sentCount + 1) ok], s1, .stopped⟩ := by
  rw [mainLoop]
  simp only [hr, hs, h1]
  simp
  intro h
  by_contra hc
  exact hl ⟨h, by omega⟩

theorem mainLoop_step_wait (D M : Int) (s : RunState) (it : Iter) (rest : List Iter)
    (hr : s.running = true) (hl : ¬ (0 < M ∧ M ≤ (s.sentCount : Int)))
    (s1 : RunState) (ok : Bool)
    (hs : sendOne s it.stopDuringSend it.sendMail = .ok (s1, ok))
    (h1 : s1.running = true) :
    mainLoop D M s (it :: rest) =
      ⟨.send (s.sentCount + 1) ok ::
        ((waitLoop (computeWait D ok s1.consecutiveErrors it.random) it.stopAtSlice
            (computeWait D ok s1.consecutiveErrors it.random).toNat 0 0 s1).slices.map .slice
          ++ (mainLoop D M
            (waitLoop (computeWait D ok s1.consecutiveErrors it.random) it.stopAtSlice
              (computeWait D ok s1.consecutiveErrors it.random).toNat 0 0 s1).state rest).events),
        (mainLoop D M
            (waitLoop (computeWait D ok s1.consecutiveErrors it.random) it.stopAtSlice
              (computeWait D ok s1.consecutiveErrors it.random).toNat 0 0 s1).state rest).final,
        (mainLoop D M
            (waitLoop (computeWait D ok s1.consecutiveErrors it.random) it.stopAtSlice
              (computeWait D ok s1.consecutiveErrors it.random).toNat 0 0 s1).state rest).reason⟩ := by
  rw [mainLoop]
  simp only [hr, hs, h1]
  simp
  intro h
  by_contra hc
  exact hl ⟨h, by omega⟩


/-! ## The backoff and jitter policy -/

theorem computeWait_fail (D : Int) (n : Nat) (hn : 1 ≤ n) (r : ℚ) :
    computeWait D false n r = D * ((min (2 ^ (n - 1)) 16 : Nat) : Int) := by
  have h : 0 < n := hn
  simp [computeWait, h]

theorem computeWait_ok (D : Int) (n : Nat) (r : ℚ) :
    computeWait D true n r = D + ⌊r * ((min 1000 ⌊(D : ℚ) / 5⌋ : Int) : ℚ)⌋ := by
  simp [computeWait]

theorem pow_ge_sixteen (n : Nat) (hn : 5 ≤ n) : 16 ≤ 2 ^ (n - 1) := by
  have h : (2 : Nat) ^ 4 ≤ 2 ^ (n - 1) := Nat.pow_le_pow_right (by norm_num) (by omega)
  simpa using h

/-- C1, refuted as stated: with `DELAY_MS = -10` (a value `parseInt` can return) and
`consecutiveErrors = 2` the wait after the failure is `-10 * 2 = -20`, which exceeds
16 times the base delay, `-160`. -/
theorem C1_counterexample :
    1 ≤ 2 ∧ computeWait (-10) false 2 0 = -20 ∧
      ¬ (computeWait (-10) false 2 0 ≤ 16 * (-10)) := by
  have h : computeWait (-10) false 2 0 = -20 := by
    rw [computeWait_fail (-10) 2 (by decide) 0]
    decide
  refine ⟨by decide, h, ?_⟩
  rw [h]
  decide

/-- C1, amended: for every base delay `DELAY_MS` and every `n ≥ 1`, after a failed
attempt that leaves `consecutiveErrors = n` the wait computed by `mainLoop` is exactly
`DELAY_MS * min(2^(n-1), 16)`: the multiplier is 1, 2, 4, 8, 16 for `n = 1..5` and 16
for every `n ≥ 5`, so the multiplier never exceeds 16 and, for every `DELAY_MS ≥ 0`,
the backoff never exceeds 16 times the base delay (for every `DELAY_MS` its magnitude
never exceeds 16 times the magnitude of the base delay). A failed call of `sendOne`
returns `false` and leaves `consecutiveErrors ≥ 1`, so this is the branch `mainLoop`
takes. -/
theorem C1_backoff_wait (DELAY_MS : Int) (n : Nat) (hn : 1 ≤ n) (random : ℚ) :
    computeWait DELAY_MS false n random = DELAY_MS * ((min (2 ^ (n - 1)) 16 : Nat) : Int) ∧
    (n = 1 → computeWait DELAY_MS false n random = DELAY_MS * 1) ∧
    (n = 2 → computeWait DELAY_MS false n random = DELAY_MS * 2) ∧
    (n = 3 → computeWait DELAY_MS false n random = DELAY_MS * 4) ∧
    (n = 4 → computeWait DELAY_MS false n random = DELAY_MS * 8) ∧
    (5 ≤ n → computeWait DELAY_MS false n random = DELAY_MS * 16) ∧
    min (2 ^ (n - 1)) 16 ≤ 16 ∧
    (computeWait DELAY_MS false n random).natAbs ≤ 16 * DELAY_MS.natAbs ∧
    (0 ≤ DELAY_MS → computeWait DELAY_MS false n random ≤ 16 * DELAY_MS) ∧
    (∀ (s s1 : RunState) (sig ok : Bool) (e : String),
      sendOne s sig (.error e) = .ok (s1, ok) → s1.consecutiveErrors = n →
      ok = false ∧ computeWait DELAY_MS ok s1.consecutiveErrors random
        = DELAY_MS * ((min (2 ^ (n - 1)) 16 : Nat) : Int)) := by
  have hw := computeWait_fail DELAY_MS n hn random
  have hm : min (2 ^ (n - 1)) 16 ≤ 16 := Nat.min_le_right _ _
  refine ⟨hw, ?_, ?_, ?_, ?_, ?_, hm, ?_, ?_, ?_⟩
  · rintro rfl; rw [hw]; norm_num
  · rintro rfl; rw [hw]; norm_num
  · rintro rfl; rw [hw]; norm_num
  · rintro rfl; rw [hw]; norm_num
  · intro h5
    rw [hw, Nat.min_eq_right (pow_ge_sixteen n h5)]
    norm_num
  · rw [hw, Int.natAbs_mul, Int.natAbs_ofNat, Nat.mul_comm]
    exact Nat.mul_le_mul_right _ hm
  · intro hD
    rw [hw, mul_comm]
    exact Int.mul_le_mul_of_nonneg_right (by exact_mod_cast hm) hD
  · intro s s1 sig ok e hs hce
    rw [sendOne_eq] at hs
    simp only [Except.ok.injEq, Prod.mk.injEq] at hs
    obtain ⟨_, hok⟩ := hs
    subst hok
    exact ⟨rfl, by rw [hce]; exact hw⟩

/-- Witness of C1: three consecutive failures, base delay 60000 ms. -/
theorem C1_backoff_wait_witness :
    1 ≤ 3 ∧ computeWait 60000 false 3 0 = 60000 * 4 ∧
      ((0 : Int) ≤ 60000 → computeWait 60000 false 3 0 ≤ 16 * 60000) :=
  ⟨by decide, (C1_backoff_wait 60000 3 (by decide) 0).2.2.2.1 rfl,
    (C1_backoff_wait 60000 3 (by decide) 0).2.2.2.2.2.2.2.2.1⟩

theorem jitter_bounds (D : Int) (r : ℚ) (hD : 0 ≤ D) (hr0 : 0 ≤ r) (hr1 : r < 1) :
    0 ≤ ⌊r * ((min 1000 ⌊(D : ℚ) / 5⌋ : Int) : ℚ)⌋ ∧
    ((⌊r * ((min 1000 ⌊(D : ℚ) / 5⌋ : Int) : ℚ)⌋ : Int) : ℚ) ≤ min 1000 ((D : ℚ) / 5) := by
  have hDq : (0 : ℚ) ≤ (D : ℚ) / 5 := div_nonneg (by exact_mod_cast hD) (by norm_num)
  have hfl : 0 ≤ ⌊(D : ℚ) / 5⌋ := Int.floor_nonneg.mpr hDq
  have hm : (0 : Int) ≤ min 1000 ⌊(D : ℚ) / 5⌋ := le_min (by norm_num) hfl
  have hmq : (0 : ℚ) ≤ ((min 1000 ⌊(D : ℚ) / 5⌋ : Int) : ℚ) := by exact_mod_cast hm
  constructor
  · exact Int.floor_nonneg.mpr (mul_nonneg hr0 hmq)
  · calc ((⌊r * ((min 1000 ⌊(D : ℚ) / 5⌋ : Int) : ℚ)⌋ : Int) : ℚ)
        ≤ r * ((min 1000 ⌊(D : ℚ) / 5⌋ : Int) : ℚ) := Int.floor_le _
      _ ≤ 1 * ((min 1000 ⌊(D : ℚ) / 5⌋ : Int) : ℚ) :=
          mul_le_mul_of_nonneg_right (le_of_lt hr1) hmq
      _ = ((min 1000 ⌊(D : ℚ) / 5⌋ : Int) : ℚ) := one_mul _
      _ = min (1000 : ℚ) ((⌊(D : ℚ) / 5⌋ : Int) : ℚ) := by
          rw [Int.cast_min]; norm_num
      _ ≤ min 1000 ((D : ℚ) / 5) := min_le_min le_rfl (Int.floor_le _)

/-- C2, refuted as stated: with `DELAY_MS = -10` (a value `parseInt` can return) and
the draw `1/2`, the wait after a success is `-11`, below `DELAY_MS`. -/
theorem C2_counterexample :
    (0 : ℚ) ≤ 1 / 2 ∧ (1 / 2 : ℚ) < 1 ∧ computeWait (-10) true 0 (1 / 2) = -11 ∧
      ¬ ((-10 : Int) ≤ computeWait (-10) true 0 (1 / 2)) := by
  have h : computeWait (-10) true 0 (1 / 2) = -11 := by
    norm_num [computeWait, Int.floor_eq_iff]
  refine ⟨by norm_num, by norm_num, h, ?_⟩
  rw [h]
  decide

/-- C2, amended: for every base delay `DELAY_MS ≥ 0` and every draw `r` in `[0, 1)`,
the wait computed after a successful attempt lies in
`[DELAY_MS, DELAY_MS + min(1000, DELAY_MS / 5)]`; for `DELAY_MS = 60000` it lies in
`[60000, 61000]`. A successful call of `sendOne` returns `true`, so this is the
branch `mainLoop` takes. -/
theorem C2_jitter_interval (DELAY_MS : Int) (random : ℚ) (n : Nat)
    (hD : 0 ≤ DELAY_MS) (hr0 : 0 ≤ random) (hr1 : random < 1) :
    DELAY_MS ≤ computeWait DELAY_MS true n random ∧
    ((computeWait DELAY_MS true n random : Int) : ℚ)
      ≤ (DELAY_MS : ℚ) + min 1000 ((DELAY_MS : ℚ) / 5) ∧
    (DELAY_MS = 60000 → 60000 ≤ computeWait DELAY_MS true n random ∧
      computeWait DELAY_MS true n random ≤ 61000) ∧
    (∀ (s s1 : RunState) (sig ok : Bool) (id : String),
      sendOne s sig (.ok id) = .ok (s1, ok) → ok = true ∧ s1.consecutiveErrors = 0) := by
  have hj := jitter_bounds DELAY_MS random hD hr0 hr1
  have hw := computeWait_ok DELAY_MS n random
  have h2 : ((computeWait DELAY_MS true n random : Int) : ℚ)
      ≤ (DELAY_MS : ℚ) + min 1000 ((DELAY_MS : ℚ) / 5) := by
    rw [hw, Int.cast_add]; linarith [hj.2]
  refine ⟨by rw [hw]; linarith [hj.1], h2, ?_, ?_⟩
  · intro h6
    subst h6
    refine ⟨by rw [hw]; linarith [hj.1], ?_⟩
    have h3 : ((computeWait 60000 true n random : Int) : ℚ) ≤ ((61000 : Int) : ℚ) := by
      refine le_trans h2 ?_
      have : min (1000 : ℚ) (((60000 : Int) : ℚ) / 5) ≤ 1000 := min_le_left _ _
      push_cast at this ⊢
      linarith
    exact_mod_cast h3
  · intro s s1 sig ok id hs
    rw [sendOne_eq] at hs
    simp only [Except.ok.injEq, Prod.mk.injEq] at hs
    obtain ⟨h1, hok⟩ := hs
    subst hok
    subst h1
    exact ⟨rfl, rfl⟩

/-- Witness of C2: the default base delay and the draw `1/2`. -/
theorem C2_jitter_interval_witness :
    (0 : Int) ≤ 60000 ∧ (0 : ℚ) ≤ 1 / 2 ∧ (1 / 2 : ℚ) < 1 ∧
      (60000 : Int) ≤ computeWait 60000 true 0 (1 / 2) :=
  ⟨by decide, by norm_num, by norm_num,
    (C2_jitter_interval 60000 (1 / 2) 0 (by decide) (by norm_num) (by norm_num)).1⟩

/-! ## The interruptible wait -/

theorem waitLoop_fuel (wait : Int) (sig : Option Nat) :
    ∀ (fuel fuel2 k : Nat) (waited : Int) (s : RunState), (wait - waited).toNat ≤ fuel →
      fuel ≤ fuel2 →
      waitLoop wait sig fuel2 k waited s = waitLoop wait sig fuel k waited s := by
  intro fuel
  induction fuel with
  | zero =>
    intro fuel2 k waited s hf _
    have hw : ¬ (waited < wait) := by omega
    cases fuel2 with
    | zero => rfl
    | succ f2 => simp [waitLoop, hw]
  | succ f ih =>
    intro fuel2 k waited s hf hle
    cases fuel2 with
    | zero => omega
    | succ f2 =>
      unfold waitLoop
      split
      · rename_i hc
        simp only [Bool.and_eq_true, decide_eq_true_eq] at hc
        simp only []
        rw [ih f2 (k + 1) (waited + step) _ (by simp only [step]; omega) (by omega)]
      · rfl

theorem ceil_div_step (w : Int) : ⌈(w : ℚ) / 500⌉ = (w + 499) / 500 := by
  rw [Int.ceil_eq_iff]
  have h1 : 500 * ((w + 499) / 500) - 500 < w := by omega
  have h2 : w ≤ 500 * ((w + 499) / 500) := by omega
  have h1q : (500 : ℚ) * (((w + 499) / 500 : Int) : ℚ) - 500 < (w : ℚ) := by
    exact_mod_cast h1
  have h2q : (w : ℚ) ≤ 500 * (((w + 499) / 500 : Int) : ℚ) := by exact_mod_cast h2
  constructor
  · rw [lt_div_iff₀ (by norm_num)]; linarith
  · rw [div_le_iff₀ (by norm_num)]; linarith

/-- C10. For every non-negative wait `w`, if `running` stays true (it is true when the
wait starts and no stop signal arrives), the wait loop ends by its own condition
(`waited ≥ w`, whatever bound at least `w` is put on the number of iterations),
after exactly `ceil(w / 500)` timer slices; each slice is positive and at most
500 ms, the slices sum to exactly `w`, and the run state is unchanged. -/
theorem C10_wait_slices (w : Int) (hw : 0 ≤ w) (s : RunState) (hr : s.running = true) :
    ((waitLoop w none w.toNat 0 0 s).slices.length : Int) = ⌈(w : ℚ) / 500⌉ ∧
    (∀ d ∈ (waitLoop w none w.toNat 0 0 s).slices, 0 < d ∧ d ≤ 500) ∧
    (waitLoop w none w.toNat 0 0 s).slices.sum = w ∧
    (waitLoop w none w.toNat 0 0 s).state = s ∧
    w ≤ (waitLoop w none w.toNat 0 0 s).waited ∧
    (∀ fuel, w.toNat ≤ fuel → waitLoop w none fuel 0 0 s = waitLoop w none w.toNat 0 0 s) := by
  have h := waitLoop_none w w.toNat 0 0 s hr (by omega)
  refine ⟨?_, waitLoop_slice_bounds w none w.toNat 0 0 s, ?_, h.1, h.2.2.2, ?_⟩
  · rw [h.2.2.1, ceil_div_step]; omega
  · rw [h.2.1]; omega
  · intro fuel hf
    exact waitLoop_fuel w none w.toNat fuel 0 0 s (by omega) hf

/-- Witness of C10: a wait of 1200 ms. -/
theorem C10_wait_slices_witness :
    (0 : Int) ≤ 1200 ∧ initialState.running = true ∧
      (waitLoop 1200 none (1200 : Int).toNat 0 0 initialState).slices.sum = 1200 :=
  ⟨by decide, rfl, (C10_wait_slices 1200 (by decide) initialState rfl).2.2.1⟩

/-- C6. If a stop signal arrives during slice number `j` of a wait (for every wait
duration `wait` long enough for that slice to be started, `j * 500 < wait`), the wait
loop performs exactly the `j + 1` slices up to and including the one in progress, each
of at most 500 ms, and leaves `running = false`; `mainLoop` then exits without a
further slice and without a further attempt, whatever remains of the wait. -/
theorem C6_stop_during_wait (wait : Int) (j : Nat) (s : RunState) (hr : s.running = true)
    (hreach : (j : Int) * 500 < wait) :
    (waitLoop wait (some j) wait.toNat 0 0 s).slices.length = j + 1 ∧
    (∀ d ∈ (waitLoop wait (some j) wait.toNat 0 0 s).slices, 0 < d ∧ d ≤ 500) ∧
    (waitLoop wait (some j) wait.toNat 0 0 s).state = { s with running := false } ∧
    (∀ (D M : Int) (rest : List Iter),
      mainLoop D M (waitLoop wait (some j) wait.toNat 0 0 s).state rest
        = ⟨[], { s with running := false }, .stopped⟩) ∧
    (∀ (D M : Int) (s0 : RunState) (it : Iter) (rest : List Iter) (ok : Bool),
      s0.running = true → ¬ (0 < M ∧ M ≤ (s0.sentCount : Int)) →
      sendOne s0 it.stopDuringSend it.sendMail = .ok (s, ok) →
      computeWait D ok s.consecutiveErrors it.random = wait →
      it.stopAtSlice = some j →
      mainLoop D M s0 (it :: rest)
        = ⟨.send (s0.sentCount + 1) ok ::
            (waitLoop wait (some j) wait.toNat 0 0 s).slices.map .slice,
          { s with running := false }, .stopped⟩) := by
  have h := waitLoop_stop wait j j 0 wait.toNat 0 s (by omega) hr (by omega) (by omega)
  have hstop : ∀ (D M : Int) (rest : List Iter),
      mainLoop D M (waitLoop wait (some j) wait.toNat 0 0 s).state rest
        = ⟨[], { s with running := false }, .stopped⟩ := by
    intro D M rest
    rw [h.2]
    exact mainLoop_not_running D M _ rest rfl
  refine ⟨h.1, waitLoop_slice_bounds wait (some j) wait.toNat 0 0 s, h.2, hstop, ?_⟩
  intro D M s0 it rest ok hr0 hl hs hwait hsig
  rw [mainLoop_step_wait D M s0 it rest hr0 hl s ok hs hr, hwait, hsig, hstop D M rest]
  simp

/-- Witness of C6: a wait of 60000 ms, stop signal during the third slice. -/
theorem C6_stop_during_wait_witness :
    initialState.running = true ∧ ((2 : Nat) : Int) * 500 < 60000 ∧
      (waitLoop 60000 (some 2) (60000 : Int).toNat 0 0 initialState).slices.length = 2 + 1 :=
  ⟨rfl, by decide, (C6_stop_during_wait 60000 2 initialState rfl (by decide)).1⟩

/-- C5. If a stop signal arrives while an attempt is in flight, the attempt is not
aborted: `sendOne` returns normally, its result is applied to `sentCount` and
`consecutiveErrors` (success: `sentCount + 1` and `consecutiveErrors = 0`; failure:
`consecutiveErrors + 1`), `running` is false, and `mainLoop` exits with that single
attempt as its only action: no wait slice and no further attempt. -/
theorem C5_stop_during_send (D M : Int) (s : RunState) (it : Iter) (rest : List Iter)
    (hr : s.running = true) (hl : ¬ (0 < M ∧ M ≤ (s.sentCount : Int)))
    (hsig : it.stopDuringSend = true) :
    ∃ s1 ok, sendOne s it.stopDuringSend it.sendMail = .ok (s1, ok) ∧
      (ok = true ↔ ∃ id, it.sendMail = .ok id) ∧
      s1.running = false ∧
      s1.sentCount = s.sentCount + (if ok then 1 else 0) ∧
      s1.consecutiveErrors = (if ok then 0 else s.consecutiveErrors + 1) ∧
      mainLoop D M s (it :: rest) = ⟨[.send (s.sentCount + 1) ok], s1, .stopped⟩ := by
  obtain ⟨s1, ok, hs, hrun, hsc, hce, hok⟩ := sendOne_spec s it.stopDuringSend it.sendMail
  have h1 : s1.running = false := by rw [hrun, hsig]; simp
  exact ⟨s1, ok, hs, hok, h1, hsc, hce, mainLoop_step_stop D M s it rest hr hl s1 ok hs h1⟩

/-- Witness of C5: the first attempt of a run fails while a stop signal arrives. -/
theorem C5_stop_during_send_witness :
    initialState.running = true ∧ ¬ ((0 : Int) < 0 ∧ (0 : Int) ≤ (initialState.sentCount : Int)) ∧
    ∃ s1 ok, sendOne initialState true (.error "timeout") = .ok (s1, ok) ∧
      (ok = true ↔ ∃ id, (Except.error "timeout" : Except String String) = .ok id) ∧
      s1.running = false ∧
      s1.sentCount = initialState.sentCount + (if ok then 1 else 0) ∧
      s1.consecutiveErrors = (if ok then 0 else initialState.consecutiveErrors + 1) ∧
      mainLoop 60000 0 initialState [⟨.error "timeout", true, 0, none⟩]
        = ⟨[.send (initialState.sentCount + 1) ok], s1, .stopped⟩ :=
  ⟨rfl, by decide,
    C5_stop_during_send 60000 0 initialState ⟨.error "timeout", true, 0, none⟩ [] rfl
      (by decide) rfl⟩

theorem mainLoop_never_fatal (D M : Int) :
    ∀ (script : List Iter) (s : RunState), (mainLoop D M s script).reason ≠ .fatal := by
  intro script
  induction script with
  | nil =>
    intro s
    unfold mainLoop
    split
    · simp
    · split <;> simp
  | cons it rest ih =>
    intro s
    cases hr : s.running with
    | false => rw [mainLoop_not_running D M s _ hr]; simp
    | true =>
      by_cases hl : 0 < M ∧ M ≤ (s.sentCount : Int)
      · rw [mainLoop_at_limit D M s _ hr hl.1 hl.2]; simp
      · obtain ⟨s1, ok, hs, -⟩ := sendOne_spec s it.stopDuringSend it.sendMail
        cases h1 : s1.running with
        | false => rw [mainLoop_step_stop D M s it rest hr hl s1 ok hs h1]; simp
        | true =>
          rw [mainLoop_step_wait D M s it rest hr hl s1 ok hs h1]
          exact ih _

/-- C9. An error raised by the transport does not leave `sendOne`: the call returns
normally, with `false` (and `true` exactly when the send succeeded); `mainLoop` never
ends through its fatal-error handler; and after a failed attempt with `running` still
true the loop performs the backoff wait `DELAY_MS * min(2^(n-1), 16)`
(`n` the new value of `consecutiveErrors`) and then goes on with the next iteration. -/
theorem C9_transport_error (s : RunState) (sig : Bool) (res : Except String String) :
    (∃ s1 ok, sendOne s sig res = .ok (s1, ok) ∧ (ok = true ↔ ∃ id, res = .ok id)) ∧
    (∀ e, sendOne s sig (.error e)
      = .ok (⟨s.sentCount, (s.running && !sig), s.consecutiveErrors + 1⟩, false)) ∧
    (∀ (D M : Int) (s0 : RunState) (script : List Iter),
      (mainLoop D M s0 script).reason ≠ .fatal) ∧
    (∀ (D M : Int) (it : Iter) (rest : List Iter) (e : String),
      s.running = true → ¬ (0 < M ∧ M ≤ (s.sentCount : Int)) →
      it.sendMail = .error e → it.stopDuringSend = false →
      mainLoop D M s (it :: rest) =
        ⟨.send (s.sentCount + 1) false ::
          ((waitLoop (D * ((min (2 ^ s.consecutiveErrors) 16 : Nat) : Int)) it.stopAtSlice
              (D * ((min (2 ^ s.consecutiveErrors) 16 : Nat) : Int)).toNat 0 0
              ⟨s.sentCount, true, s.consecutiveErrors + 1⟩).slices.map .slice
            ++ (mainLoop D M
                (waitLoop (D * ((min (2 ^ s.consecutiveErrors) 16 : Nat) : Int)) it.stopAtSlice
                  (D * ((min (2 ^ s.consecutiveErrors) 16 : Nat) : Int)).toNat 0 0
                  ⟨s.sentCount, true, s.consecutiveErrors + 1⟩).state rest).events),
          (mainLoop D M
                (waitLoop (D * ((min (2 ^ s.consecutiveErrors) 16 : Nat) : Int)) it.stopAtSlice
                  (D * ((min (2 ^ s.consecutiveErrors) 16 : Nat) : Int)).toNat 0 0
                  ⟨s.sentCount, true, s.consecutiveErrors + 1⟩).state rest).final,
          (mainLoop D M
                (waitLoop (D * ((min (2 ^ s.consecutiveErrors) 16 : Nat) : Int)) it.stopAtSlice
                  (D * ((min (2 ^ s.consecutiveErrors) 16 : Nat) : Int)).toNat 0 0
                  ⟨s.sentCount, true, s.consecutiveErrors + 1⟩).state rest).reason⟩) := by
  have herr : ∀ e, sendOne s sig (.error e)
      = .ok (⟨s.sentCount, (s.running && !sig), s.consecutiveErrors + 1⟩, false) := by
    intro e
    rw [sendOne_eq]
    cases s with
    | mk a b c => cases sig <;> cases b <;> rfl
  refine ⟨?_, herr, fun D M s0 script => mainLoop_never_fatal D M script s0, ?_⟩
  · obtain ⟨s1, ok, hs, -, -, -, hok⟩ := sendOne_spec s sig res
    exact ⟨s1, ok, hs, hok⟩
  · intro D M it rest e hr hl he hsig
    have hs : sendOne s it.stopDuringSend it.sendMail
        = .ok (⟨s.sentCount, true, s.consecutiveErrors + 1⟩, false) := by
      rw [he, hsig, sendOne_eq]
      simp [hr]
    rw [mainLoop_step_wait D M s it rest hr hl _ false hs rfl]
    have hw : computeWait D false (s.consecutiveErrors + 1) it.random
        = D * ((min (2 ^ s.consecutiveErrors) 16 : Nat) : Int) := by
      rw [computeWait_fail D (s.consecutiveErrors + 1) (by omega)]
      simp
    simp only [hw]

/-- Witness of C9: the first attempt of a run fails, no stop signal. -/
theorem C9_transport_error_witness :
    initialState.running = true ∧
    ¬ ((0 : Int) < 0 ∧ (0 : Int) ≤ (initialState.sentCount : Int)) ∧
    (mainLoop 1000 0 initialState [⟨.error "boom", false, 0, none⟩]).reason ≠ .fatal ∧
    sendOne initialState false (.error "boom") = .ok (⟨0, true, 1⟩, false) ∧
    (mainLoop 1000 0 initialState [⟨.error "boom", false, 0, none⟩]).events
      = .send 1 false ::
        ((waitLoop (1000 * ((min (2 ^ 0) 16 : Nat) : Int)) none
            (1000 * ((min (2 ^ 0) 16 : Nat) : Int)).toNat 0 0 ⟨0, true, 1⟩).slices.map .slice
          ++ (mainLoop 1000 0
              (waitLoop (1000 * ((min (2 ^ 0) 16 : Nat) : Int)) none
                (1000 * ((min (2 ^ 0) 16 : Nat) : Int)).toNat 0 0 ⟨0, true, 1⟩).state
              []).events) :=
  ⟨rfl, by decide,
    (C9_transport_error initialState false (.error "boom")).2.2.1 1000 0 initialState _,
    (C9_transport_error initialState false (.error "boom")).2.1 "boom",
    congrArg Outcome.events
      ((C9_transport_error initialState false (.error "boom")).2.2.2 1000 0
        ⟨.error "boom", false, 0, none⟩ [] "boom" rfl (by decide) rfl rfl)⟩

/-! ## The counters -/

theorem applyAttempt_eq (s : RunState) (it : Iter) :
    applyAttempt s it =
      if it.succeeds then ⟨s.sentCount + 1, (s.running && !it.stopDuringSend), 0⟩
      else ⟨s.sentCount, (s.running && !it.stopDuringSend), s.consecutiveErrors + 1⟩ := by
  obtain ⟨a, b, c⟩ := s
  obtain ⟨res, sig, r, k⟩ := it
  simp only [applyAttempt, sendOne_eq, Iter.succeeds]
  cases res <;> cases sig <;> cases b <;> rfl

theorem attempts_snoc (s : RunState) (l : List Iter) (it : Iter) :
    attempts s (l ++ [it]) = applyAttempt (attempts s l) it := by
  simp [attempts, List.foldl_append]

theorem attempts_counters (s : RunState) (l : List Iter) :
    (attempts s l).sentCount = s.sentCount + l.countP Iter.succeeds ∧
    (attempts s l).consecutiveErrors
      = (l.reverse.takeWhile (fun it => !it.succeeds)).length
        + (if l.all (fun it => !it.succeeds) then s.consecutiveErrors else 0) := by
  induction l using List.reverseRecOn with
  | nil => simp [attempts]
  | append_singleton l it ih =>
    rw [attempts_snoc, applyAttempt_eq]
    cases h : it.succeeds with
    | true =>
      simp [h, ih.1, List.countP_append, List.takeWhile_cons]
      omega
    | false =>
      simp [h, ih.1, ih.2, List.countP_append, List.takeWhile_cons]
      omega

theorem attempts_congr (l : List Iter) :
    ∀ (s t : RunState), s.sentCount = t.sentCount →
      s.consecutiveErrors = t.consecutiveErrors →
      (attempts s l).sentCount = (attempts t l).sentCount ∧
      (attempts s l).consecutiveErrors = (attempts t l).consecutiveErrors := by
  induction l with
  | nil => intro s t h1 h2; exact ⟨h1, h2⟩
  | cons it rest ih =>
    intro s t h1 h2
    simp only [attempts, List.foldl_cons]
    apply ih
    · rw [applyAttempt_eq, applyAttempt_eq]; split <;> simp [h1]
    · rw [applyAttempt_eq, applyAttempt_eq]; split <;> simp [h2]

/-- C4. One attempt (`sendOne`) updates the counters as follows: on success
`sentCount` increases by exactly 1 and `consecutiveErrors` becomes 0 whatever it was;
on failure `consecutiveErrors` increases by exactly 1 and `sentCount` is unchanged.
Hence after any sequence of attempts `sentCount` has grown by the number of successful
attempts and `consecutiveErrors` is the number of failed attempts since the last
success (since the start, added to the starting value, if there was no success); for
the outcomes fail, fail, success from the initial state the values of
`consecutiveErrors` observed are 1, 2, 0. -/
theorem C4_counter_updates (s : RunState) (sig : Bool) :
    (∀ id, sendOne s sig (.ok id) = .ok (⟨s.sentCount + 1, (s.running && !sig), 0⟩, true)) ∧
    (∀ e, sendOne s sig (.error e)
      = .ok (⟨s.sentCount, (s.running && !sig), s.consecutiveErrors + 1⟩, false)) ∧
    (∀ script : List Iter,
      (attempts s script).sentCount = s.sentCount + script.countP Iter.succeeds ∧
      (attempts s script).consecutiveErrors
        = (script.reverse.takeWhile (fun it => !it.succeeds)).length
          + (if script.all (fun it => !it.succeeds) then s.consecutiveErrors else 0)) ∧
    (∀ script : List Iter,
      (attempts initialState script).sentCount = script.countP Iter.succeeds ∧
      (attempts initialState script).consecutiveErrors
        = (script.reverse.takeWhile (fun it => !it.succeeds)).length) ∧
    (∀ (e1 e2 id : String) (g1 g2 g3 : Bool) (r1 r2 r3 : ℚ) (k1 k2 k3 : Option Nat),
      observedErrors initialState
        [⟨.error e1, g1, r1, k1⟩, ⟨.error e2, g2, r2, k2⟩, ⟨.ok id, g3, r3, k3⟩] = [1, 2, 0]) := by
  refine ⟨?_, ?_, attempts_counters s, ?_, ?_⟩
  · intro id
    rw [sendOne_eq]
    obtain ⟨a, b, c⟩ := s
    cases sig <;> cases b <;> rfl
  · intro e
    rw [sendOne_eq]
    obtain ⟨a, b, c⟩ := s
    cases sig <;> cases b <;> rfl
  · intro script
    have h := attempts_counters initialState script
    simp only [initialState] at h ⊢
    refine ⟨by rw [h.1]; omega, ?_⟩
    rw [h.2]
    split <;> rfl
  · intro e1 e2 id g1 g2 g3 r1 r2 r3 k1 k2 k3
    simp [observedErrors, List.scanl, applyAttempt_eq, Iter.succeeds, initialState]

/-! ## Traces -/

theorem countP_isSend_slices (ds : List Int) (evs : List Event) :
    (ds.map Event.slice ++ evs).countP Event.isSend = evs.countP Event.isSend := by
  induction ds with
  | nil => rfl
  | cons d ds ih => simp [List.countP_cons, Event.isSend]

theorem countP_isSuccess_slices (ds : List Int) (evs : List Event) :
    (ds.map Event.slice ++ evs).countP Event.isSuccess = evs.countP Event.isSuccess := by
  induction ds with
  | nil => rfl
  | cons d ds ih => simp [List.countP_cons, Event.isSuccess]

theorem send_mem_slices (ds : List Int) (evs : List Event) (n : Nat) (ok : Bool) :
    Event.send n ok ∈ ds.map Event.slice ++ evs ↔ Event.send n ok ∈ evs := by
  simp

theorem sendsSeparated_slices (ds : List Int) (evs : List Event) :
    sendsSeparated (ds.map Event.slice ++ evs) = sendsSeparated evs := by
  induction ds with
  | nil => rfl
  | cons d ds ih =>
    cases h : ds.map Event.slice ++ evs with
    | nil =>
      simp only [List.append_eq_nil, List.map_eq_nil_iff] at h
      obtain ⟨hds, hevs⟩ := h
      subst hds
      subst hevs
      simp [sendsSeparated]
    | cons e rest =>
      rw [h] at ih
      simp only [List.map_cons, List.cons_append, h]
      rw [← ih]
      simp [sendsSeparated]

theorem sendsSeparated_send_slices (n : Nat) (ok : Bool) (ds : List Int) (evs : List Event)
    (hds : ds ≠ []) :
    sendsSeparated (Event.send n ok :: (ds.map Event.slice ++ evs)) = sendsSeparated evs := by
  cases ds with
  | nil => exact absurd rfl hds
  | cons d ds =>
    rw [← sendsSeparated_slices (d :: ds) evs]
    simp [sendsSeparated]

/-- C8, refuted as stated: a successful call of `sendOne` from the initial state
returns a state with `sentCount = 1`, and a failed call one with
`consecutiveErrors = 1`; the shared run state is not left unchanged. -/
theorem C8_counterexample :
    sendOne initialState false (.ok "id") = .ok (⟨1, true, 0⟩, true) ∧
    sendOne initialState false (.error "boom") = .ok (⟨0, true, 1⟩, false) ∧
    (⟨1, true, 0⟩ : RunState) ≠ initialState ∧ (⟨0, true, 1⟩ : RunState) ≠ initialState := by
  refine ⟨rfl, rfl, by decide, by decide⟩

/-- C8, amended: `sendOne` itself applies the updates of the counters (on success
`sentCount + 1` and `consecutiveErrors = 0`, on failure `consecutiveErrors + 1`); it
never writes `running` (without a stop signal during the call `running` is unchanged),
and `mainLoop` applies no update of its own: at the end of any run `sentCount` and
`consecutiveErrors` are the values produced by the calls of `sendOne` made in it. -/
theorem C8_sendOne_updates_state (s : RunState) :
    (∀ res, ∃ s1 ok, sendOne s false res = .ok (s1, ok) ∧
      s1.running = s.running ∧
      s1.sentCount = s.sentCount + (if ok then 1 else 0) ∧
      s1.consecutiveErrors = (if ok then 0 else s.consecutiveErrors + 1) ∧
      (ok = true ↔ ∃ id, res = .ok id)) ∧
    (∀ (D M : Int) (script : List Iter),
      (mainLoop D M s script).final.sentCount
        = (attempts s (script.take (sendCount (mainLoop D M s script).events))).sentCount ∧
      (mainLoop D M s script).final.consecutiveErrors
        = (attempts s
            (script.take (sendCount (mainLoop D M s script).events))).consecutiveErrors) := by
  constructor
  · intro res
    obtain ⟨s1, ok, hs, hrun, hsc, hce, hok⟩ := sendOne_spec s false res
    exact ⟨s1, ok, hs, by simpa using hrun, hsc, hce, hok⟩
  · intro D M script
    induction script generalizing s with
    | nil =>
      simp only [List.take_nil, attempts, List.foldl_nil]
      unfold mainLoop
      split
      · exact ⟨rfl, rfl⟩
      · split <;> exact ⟨rfl, rfl⟩
    | cons it rest ih =>
      cases hr : s.running with
      | false =>
        rw [mainLoop_not_running D M s _ hr]
        simp [sendCount, attempts]
      | true =>
        by_cases hl : 0 < M ∧ M ≤ (s.sentCount : Int)
        · rw [mainLoop_at_limit D M s _ hr hl.1 hl.2]
          simp [sendCount, attempts]
        · obtain ⟨s1, ok, hs, -⟩ := sendOne_spec s it.stopDuringSend it.sendMail
          have ha : applyAttempt s it = s1 := by simp [applyAttempt, hs]
          cases h1 : s1.running with
          | false =>
            rw [mainLoop_step_stop D M s it rest hr hl s1 ok hs h1]
            simp [sendCount, Event.isSend, attempts, ha]
          | true =>
            rw [mainLoop_step_wait D M s it rest hr hl s1 ok hs h1]
            simp only [sendCount, List.countP_cons, Event.isSend, if_true,
              countP_isSend_slices, List.take_succ_cons, attempts, List.foldl_cons, ha]
            have hc := waitLoop_counters (computeWait D ok s1.consecutiveErrors it.random)
              it.stopAtSlice (computeWait D ok s1.consecutiveErrors it.random).toNat 0 0 s1
            have hi := ih (waitLoop (computeWait D ok s1.consecutiveErrors it.random)
              it.stopAtSlice (computeWait D ok s1.consecutiveErrors it.random).toNat 0 0 s1).state
            have hg := attempts_congr
              (rest.take (sendCount (mainLoop D M (waitLoop
                (computeWait D ok s1.consecutiveErrors it.random) it.stopAtSlice
                (computeWait D ok s1.consecutiveErrors it.random).toNat 0 0 s1).state
                rest).events)) _ s1 hc.1 hc.2
            simp only [sendCount, attempts] at hi hg
            exact ⟨hi.1.trans hg.1, hi.2.trans hg.2⟩

/-! ## Attempts are separated by waits -/

theorem computeWait_pos (D : Int) (hD : 0 < D) (ok : Bool) (n : Nat)
    (hn : ok = false → 1 ≤ n) (r : ℚ) (hr0 : 0 ≤ r) (hr1 : r < 1) :
    0 < computeWait D ok n r := by
  cases ok with
  | true =>
    have h := (jitter_bounds D r (le_of_lt hD) hr0 hr1).1
    rw [computeWait_ok]
    omega
  | false =>
    rw [computeWait_fail D n (hn rfl) r]
    have h1 : 1 ≤ min (2 ^ (n - 1)) 16 := le_min (Nat.one_le_two_pow) (by norm_num)
    have h2 : (0 : Int) < ((min (2 ^ (n - 1)) 16 : Nat) : Int) := by exact_mod_cast h1
    exact Int.mul_pos hD h2

/-- C7, refuted as stated: with `DELAY_MS = 0` and two successful sends the wait
is 0 ms, the wait loop starts no slice, and the two calls of `sendOne` are adjacent. -/
theorem C7_counterexample :
    (mainLoop 0 0 initialState
      [⟨.ok "a", false, 1 / 2, none⟩, ⟨.ok "b", false, 1 / 2, none⟩]).events
      = [.send 1 true, .send 2 true] ∧
    sendsSeparated [.send 1 true, .send 2 true] = false := by
  have hw : computeWait 0 true 0 (1 / 2) = 0 := by
    norm_num [computeWait]
  refine ⟨?_, rfl⟩
  rw [mainLoop_step_wait 0 0 initialState ⟨.ok "a", false, 1 / 2, none⟩
    [⟨.ok "b", false, 1 / 2, none⟩] rfl (by decide) ⟨1, true, 0⟩ true rfl rfl]
  simp only [hw]
  rw [show (waitLoop 0 none (0 : Int).toNat 0 0 ⟨1, true, 0⟩) = ⟨[], 0, ⟨1, true, 0⟩⟩ from rfl]
  rw [mainLoop_step_wait 0 0 ⟨1, true, 0⟩ ⟨.ok "b", false, 1 / 2, none⟩ [] rfl (by decide)
    ⟨2, true, 0⟩ true rfl rfl]
  simp only [hw]
  rw [show (waitLoop 0 none (0 : Int).toNat 0 0 ⟨2, true, 0⟩) = ⟨[], 0, ⟨2, true, 0⟩⟩ from rfl]
  rw [mainLoop_nil 0 0 ⟨2, true, 0⟩ rfl (by decide)]
  rfl

/-- C7, amended: for every `DELAY_MS > 0`, every `MAX_COUNT`, every start state and
every sequence of attempt outcomes, stop signals and draws in `[0, 1)`, `mainLoop`
never starts two attempts without an intervening wait: between any two consecutive
calls of `sendOne` the wait loop executes at least one timed slice. -/
theorem C7_sends_separated (DELAY_MS MAX_COUNT : Int) (hD : 0 < DELAY_MS)
    (script : List Iter) (hdraw : ∀ it ∈ script, 0 ≤ it.random ∧ it.random < 1)
    (s : RunState) :
    sendsSeparated (mainLoop DELAY_MS MAX_COUNT s script).events = true := by
  induction script generalizing s with
  | nil =>
    unfold mainLoop
    split
    · rfl
    · split <;> rfl
  | cons it rest ih =>
    cases hr : s.running with
    | false => rw [mainLoop_not_running _ _ s _ hr]; rfl
    | true =>
      by_cases hl : 0 < MAX_COUNT ∧ MAX_COUNT ≤ (s.sentCount : Int)
      · rw [mainLoop_at_limit _ _ s _ hr hl.1 hl.2]; rfl
      · obtain ⟨s1, ok, hs, -, -, hce, -⟩ := sendOne_spec s it.stopDuringSend it.sendMail
        cases h1 : s1.running with
        | false => rw [mainLoop_step_stop _ _ s it rest hr hl s1 ok hs h1]; rfl
        | true =>
          rw [mainLoop_step_wait _ _ s it rest hr hl s1 ok hs h1]
          have hd := hdraw it (List.mem_cons_self _ _)
          have hpos : 0 < computeWait DELAY_MS ok s1.consecutiveErrors it.random := by
            apply computeWait_pos DELAY_MS hD ok _ _ _ hd.1 hd.2
            intro hok
            rw [hce, hok]
            simp
          have hne := waitLoop_nonempty (computeWait DELAY_MS ok s1.consecutiveErrors it.random)
            it.stopAtSlice (computeWait DELAY_MS ok s1.consecutiveErrors it.random).toNat 0 0 s1
            (by omega) hpos h1
          simp only []
          rw [sendsSeparated_send_slices _ _ _ _ hne]
          exact ih (fun x hx => hdraw x (List.mem_cons_of_mem _ hx)) _

/-- Witness of C7: base delay 1000 ms, a failure followed by a success. -/
theorem C7_sends_separated_witness :
    (0 : Int) < 1000 ∧
    (∀ it ∈ ([⟨.error "boom", false, 0, none⟩, ⟨.ok "id", false, 1 / 2, none⟩] : List Iter),
      0 ≤ it.random ∧ it.random < 1) ∧
    sendsSeparated (mainLoop 1000 0 initialState
      [⟨.error "boom", false, 0, none⟩, ⟨.ok "id", false, 1 / 2, none⟩]).events = true :=
  ⟨by decide, by simp; norm_num,
    C7_sends_separated 1000 0 (by decide) _ (by simp; norm_num) initialState⟩

/-! ## The attempt limit -/

theorem succeeds_iff (it : Iter) : it.succeeds = true ↔ ∃ id, it.sendMail = .ok id := by
  obtain ⟨res, sig, r, k⟩ := it
  cases res <;> simp [Iter.succeeds]

theorem mainLoop_limit (D M : Int) (hM : 0 < M) (script : List Iter)
    (hno : ∀ it ∈ script, it.stopDuringSend = false ∧ it.stopAtSlice = none)
    (s : RunState) (hr : s.running = true) (hle : (s.sentCount : Int) ≤ M) :
    (∀ n ok, Event.send n ok ∈ (mainLoop D M s script).events →
      s.sentCount < n ∧ (n : Int) ≤ M) ∧
    (mainLoop D M s script).final.sentCount
      = s.sentCount + (mainLoop D M s script).events.countP Event.isSuccess ∧
    ((mainLoop D M s script).final.sentCount : Int) ≤ M ∧
    ((mainLoop D M s script).reason = .limitReached ↔
      ((mainLoop D M s script).final.sentCount : Int) = M) ∧
    ((mainLoop D M s script).reason = .limitReached ∨
      (mainLoop D M s script).reason = .pending) ∧
    (M ≤ ((s.sentCount + script.countP Iter.succeeds : Nat) : Int) →
      (mainLoop D M s script).reason = .limitReached) ∧
    ((∀ it ∈ script, it.succeeds = true) →
      sendCount (mainLoop D M s script).events
        = (mainLoop D M s script).events.countP Event.isSuccess) := by
  induction script generalizing s with
  | nil =>
    by_cases hl : M ≤ (s.sentCount : Int)
    · rw [mainLoop_at_limit D M s _ hr hM hl]
      simp [sendCount]
      omega
    · rw [mainLoop_nil D M s hr (fun h => hl h.2)]
      simp [sendCount]
      omega
  | cons it rest ih =>
    by_cases hl : M ≤ (s.sentCount : Int)
    · rw [mainLoop_at_limit D M s _ hr hM hl]
      simp [sendCount]
      omega
    · obtain ⟨s1, ok, hs, hrun, hsc, -, hok⟩ := sendOne_spec s it.stopDuringSend it.sendMail
      have hit := hno it (List.mem_cons_self _ _)
      have h1 : s1.running = true := by rw [hrun, hr, hit.1]; rfl
      have hw := waitLoop_none (computeWait D ok s1.consecutiveErrors it.random)
        (computeWait D ok s1.consecutiveErrors it.random).toNat 0 0 s1 h1 (by omega)
      rw [mainLoop_step_wait D M s it rest hr (fun h => hl h.2) s1 ok hs h1, hit.2, hw.1]
      have hsucc : it.succeeds = ok := by
        cases hb : ok with
        | true => exact (succeeds_iff it).mpr (hok.mp hb)
        | false =>
          cases hc : it.succeeds with
          | false => rfl
          | true =>
            have := hok.mpr ((succeeds_iff it).mp hc)
            rw [hb] at this
            exact absurd this (by decide)
      have hle1 : (s1.sentCount : Int) ≤ M := by
        rw [hsc]; split <;> push_cast <;> omega
      obtain ⟨i1, i2, i3, i4, i5, i6, i7⟩ :=
        ih (fun x hx => hno x (List.mem_cons_of_mem _ hx)) s1 h1 hle1
      simp only [List.mem_cons, send_mem_slices, List.countP_cons, countP_isSuccess_slices,
        countP_isSend_slices, sendCount, Event.isSuccess, Event.isSend, if_true]
      refine ⟨?_, ?_, i3, i4, i5, ?_, ?_⟩
      · intro n b hn
        rcases hn with hn | hn
        · injection hn with hn1 hn2
          omega
        · have := i1 n b hn
          rw [hsc] at this
          constructor
          · have := this.1; split at this <;> omega
          · exact this.2
      · rw [i2, hsc]
        cases ok
        · simp
        · simp; omega
      · intro hge
        apply i6
        rw [hsc, ← hsucc]
        rw [hsucc] at hge ⊢
        cases ok <;> simp at hge ⊢ <;> omega
      · intro hall
        have hok1 : ok = true := by rw [← hsucc]; exact hall it (Or.inl rfl)
        have := i7 (fun x hx => hall x (Or.inr hx))
        simp only [sendCount] at this
        rw [this, hok1]
        simp

/-- C3. For every `MAX_COUNT > 0` and every sequence of attempt outcomes, with no
cancellation, a run from the initial state starts an attempt only while
`sentCount < MAX_COUNT` (the attempt number `sentCount + 1` is at most `MAX_COUNT`),
`sentCount` never exceeds `MAX_COUNT`, the loop stops at the limit check exactly when
`sentCount = MAX_COUNT` (and it does stop there as soon as the outcomes contain
`MAX_COUNT` successes), and `sentCount` counts the successful sends only. With
`MAX_COUNT = 2` and a transport that always succeeds, exactly 2 attempts are made
and the final `sentCount` is 2. -/
theorem C3_limit (DELAY_MS MAX_COUNT : Int) (hM : 0 < MAX_COUNT) (script : List Iter)
    (hno : ∀ it ∈ script, it.stopDuringSend = false ∧ it.stopAtSlice = none) :
    (∀ n ok, Event.send n ok ∈ (mainLoop DELAY_MS MAX_COUNT initialState script).events →
      ∃ c : Nat, n = c + 1 ∧ (c : Int) < MAX_COUNT) ∧
    ((mainLoop DELAY_MS MAX_COUNT initialState script).final.sentCount : Int) ≤ MAX_COUNT ∧
    ((mainLoop DELAY_MS MAX_COUNT initialState script).reason = .limitReached ↔
      ((mainLoop DELAY_MS MAX_COUNT initialState script).final.sentCount : Int) = MAX_COUNT) ∧
    (mainLoop DELAY_MS MAX_COUNT initialState script).final.sentCount
      = (mainLoop DELAY_MS MAX_COUNT initialState script).events.countP Event.isSuccess ∧
    ((mainLoop DELAY_MS MAX_COUNT initialState script).reason = .limitReached ∨
      (mainLoop DELAY_MS MAX_COUNT initialState script).reason = .pending) ∧
    (MAX_COUNT ≤ ((script.countP Iter.succeeds : Nat) : Int) →
      (mainLoop DELAY_MS MAX_COUNT initialState script).reason = .limitReached) ∧
    (MAX_COUNT = 2 → (∀ it ∈ script, it.succeeds = true) → 2 ≤ script.length →
      sendCount (mainLoop DELAY_MS MAX_COUNT initialState script).events = 2 ∧
      (mainLoop DELAY_MS MAX_COUNT initialState script).final.sentCount = 2 ∧
      (mainLoop DELAY_MS MAX_COUNT initialState script).reason = .limitReached) := by
  have h0 : ((initialState.sentCount : Nat) : Int) ≤ MAX_COUNT := by
    simp only [initialState]; omega
  obtain ⟨i1, i2, i3, i4, i5, i6, i7⟩ :=
    mainLoop_limit DELAY_MS MAX_COUNT hM script hno initialState rfl h0
  have hz : initialState.sentCount = 0 := rfl
  rw [hz, Nat.zero_add] at i2 i6
  refine ⟨?_, i3, i4, i2, i5, i6, ?_⟩
  · intro n ok hn
    have := i1 n ok hn
    exact ⟨n - 1, by omega, by omega⟩
  · intro h2 hall hlen
    subst h2
    have hcount : script.countP Iter.succeeds = script.length :=
      List.countP_eq_length.mpr hall
    have hlim := i6 (by rw [hcount]; exact_mod_cast hlen)
    have hfin := i4.mp hlim
    have hfin2 : (mainLoop DELAY_MS 2 initialState script).final.sentCount = 2 := by
      exact_mod_cast hfin
    refine ⟨?_, hfin2, hlim⟩
    rw [i7 hall, ← i2, hfin2]

/-- Witness of C3: `MAX_COUNT = 2`, three successful sends on offer. -/
theorem C3_limit_witness :
    (0 : Int) < 2 ∧
    (∀ it ∈ ([⟨.ok "a", false, 0, none⟩, ⟨.ok "b", false, 0, none⟩,
        ⟨.ok "c", false, 0, none⟩] : List Iter),
      it.stopDuringSend = false ∧ it.stopAtSlice = none) ∧
    sendCount (mainLoop 1000 2 initialState
      [⟨.ok "a", false, 0, none⟩, ⟨.ok "b", false, 0, none⟩,
        ⟨.ok "c", false, 0, none⟩]).events = 2 ∧
    (mainLoop 1000 2 initialState
      [⟨.ok "a", false, 0, none⟩, ⟨.ok "b", false, 0, none⟩,
        ⟨.ok "c", false, 0, none⟩]).final.sentCount = 2 ∧
    (mainLoop 1000 2 initialState
      [⟨.ok "a", false, 0, none⟩, ⟨.ok "b", false, 0, none⟩,
        ⟨.ok "c", false, 0, none⟩]).reason = .limitReached :=
  ⟨by decide, by simp,
    (C3_limit 1000 2 (by decide) _ (by simp)).2.2.2.2.2.2 rfl (by simp [Iter.succeeds])
      (by simp)⟩

end GmailSpam
